import Mathlib

/-!
Verification of the synchronization engine of `rotating-playlist-manager.py`.

The Python functions are shallowly embedded as Lean functions.  Remote
paginated endpoints are modelled as page functions `Nat → page` (the offset
is the only request parameter the code varies); the concrete Spotify
behaviour of serving slice `[offset, offset+limit)` of an underlying list is
modelled by `pageOf` / `respOf`.  Loops carry a fuel argument (returning
`none` on exhaustion) and additionally return the list of page offsets they
requested, so that call-count properties can be stated.  Timestamps are
modelled in proleptic‑Gregorian ordinal seconds, which is order- and
difference-isomorphic to Python `datetime` arithmetic in UTC.
-/

set_option maxRecDepth 4000

namespace RotMgr

/-! ### Timestamp parsing: `datetime.strptime(s, "%Y-%m-%dT%H:%M:%SZ")` -/

/-- Numeric value of a digit character. -/
def digitVal (c : Char) : Nat := c.toNat - 48

/-- Greedily read one or two digits (the behaviour of strptime's
`%m`/`%d`/`%H`/`%M`/`%S` directives, with range validation done later). -/
def take2Digits : List Char → Option (Nat × List Char)
  | c1 :: c2 :: rest =>
    if c1.isDigit then
      if c2.isDigit then some (digitVal c1 * 10 + digitVal c2, rest)
      else some (digitVal c1, c2 :: rest)
    else none
  | [c1] => if c1.isDigit then some (digitVal c1, []) else none
  | [] => none

/-- Read exactly four digits (strptime's `%Y`). -/
def take4Digits : List Char → Option (Nat × List Char)
  | a :: b :: c :: d :: rest =>
    if a.isDigit ∧ b.isDigit ∧ c.isDigit ∧ d.isDigit then
      some (((digitVal a * 10 + digitVal b) * 10 + digitVal c) * 10 + digitVal d, rest)
    else none
  | _ => none

/-- Consume one expected literal character. -/
def expectChar (c : Char) : List Char → Option (List Char)
  | x :: rest => if x = c then some rest else none
  | [] => none

def isLeapYear (y : Nat) : Bool := (y % 4 == 0 && y % 100 != 0) || y % 400 == 0

def daysInMonth (y m : Nat) : Nat :=
  if m = 2 then (if isLeapYear y then 29 else 28)
  else if m = 4 ∨ m = 6 ∨ m = 9 ∨ m = 11 then 30
  else 31

/-- Days in the proleptic Gregorian calendar strictly before year `y`
(`date.toordinal`-style). -/
def daysBeforeYear (y : Nat) : Nat :=
  (y - 1) * 365 + (y - 1) / 4 - (y - 1) / 100 + (y - 1) / 400

/-- Days of year `y` strictly before month `m`. -/
def daysBeforeMonth (y m : Nat) : Nat :=
  (List.range' 1 (m - 1)).foldl (fun acc k => acc + daysInMonth y k) 0

/-- A UTC datetime as ordinal seconds.  Comparison and subtraction of a
`timedelta` given in seconds agree with Python `datetime` semantics. -/
def toEpochSec (y mo d h mi s : Nat) : Int :=
  (((daysBeforeYear y + daysBeforeMonth y mo + (d - 1)) * 86400 + h * 3600 + mi * 60 + s : Nat) : Int)

/-- `datetime.strptime(str, "%Y-%m-%dT%H:%M:%SZ")`: `none` models the
`ValueError` raise, `some t` the parsed datetime (as ordinal seconds). -/
def parseAddedAt (str : String) : Option Int := do
  let cs := str.toList
  let (y, cs) ← take4Digits cs
  let cs ← expectChar '-' cs
  let (mo, cs) ← take2Digits cs
  let cs ← expectChar '-' cs
  let (d, cs) ← take2Digits cs
  let cs ← expectChar 'T' cs
  let (h, cs) ← take2Digits cs
  let cs ← expectChar ':' cs
  let (mi, cs) ← take2Digits cs
  let cs ← expectChar ':' cs
  let (s, cs) ← take2Digits cs
  let cs ← expectChar 'Z' cs
  if cs = [] ∧ 1 ≤ y ∧ 1 ≤ mo ∧ mo ≤ 12 ∧ 1 ≤ d ∧ d ≤ daysInMonth y mo ∧
      h ≤ 23 ∧ mi ≤ 59 ∧ s ≤ 59 then
    some (toEpochSec y mo d h mi s)
  else
    none

/-- `cutoff = datetime.now(UTC) - timedelta(days=months*30)`, in seconds. -/
def cutoffOf (now : Int) (months : Nat) : Int := now - (months : Int) * 30 * 86400

/-! ### Data model -/

/-- One element of `current_user_saved_tracks(...)["items"]`: the fields the
engine reads (`added_at` raw string, `track.id`). -/
structure SavedItem where
  added_at : String
  track_id : String
deriving DecidableEq

/-- One element of `current_user_playlists(...)["items"]`: the fields the
engine reads (`id`, `name`, `owner.id`). -/
structure Playlist where
  id : String
  name : String
  owner : String
deriving DecidableEq

/-- A `current_user_playlists` response: its `items` and whether `next` is
non-null. -/
structure PlaylistsResp where
  items : List Playlist
  next : Bool
deriving DecidableEq

/-- A recorded `user_playlist_create` call. -/
structure CreateCall where
  user : String
  name : String
  public : Bool
deriving DecidableEq

/-- A recorded mutating call on a playlist's contents. -/
inductive WriteCall where
  | replace (ids : List String)
  | append (ids : List String)
deriving DecidableEq

/-- Reconciliation outcome (`"already up to date"` vs `"updated with n"`). -/
inductive Outcome where
  | noChangeNeeded
  | updated (count : Nat)
deriving DecidableEq

/-! ### The remote service's pagination (external collaborator, spec section 6):
a listing endpoint serves slice `[offset, offset+limit)` of its underlying
list, and reports `next` non-null exactly when further items remain. -/

/-- Page of an underlying list at a given offset. -/
def pageOf (l : List α) (limit offset : Nat) : List α := (l.drop offset).take limit

/-- Playlists-listing response at a given offset. -/
def respOf (l : List Playlist) (limit offset : Nat) : PlaylistsResp :=
  ⟨pageOf l limit offset, decide (offset + limit < l.length)⟩

/-! ### `fetch_liked_tracks` (lines 24–40) -/

/-- Result of one `for item in items` scan of a page. -/
inductive ScanOut where
  | raise
  | earlyReturn (results : List String)
  | next (results : List String)
deriving DecidableEq

/-- The page-scanning `for` body of `fetch_liked_tracks`: parse `added_at`
(raising on failure), keep ids at or after the cutoff, and return early at
the first older entry. -/
def scanItems (cutoff : Int) : List SavedItem → List String → ScanOut
  | [], acc => .next acc
  | it :: rest, acc =>
    match parseAddedAt it.added_at with
    | none => .raise
    | some t => if cutoff ≤ t then scanItems cutoff rest (acc ++ [it.track_id]) else .earlyReturn acc

inductive FetchResult where
  | ok (ids : List String)
  | raised
deriving DecidableEq

/-- Constructor tag of a scan outcome; the tag does not depend on the
accumulator. -/
def scanTag : ScanOut → Nat
  | .raise => 0
  | .earlyReturn _ => 1
  | .next _ => 2

/-- The paged `while True` loop of `fetch_liked_tracks`; returns the
requested offsets alongside the outcome, `none` on fuel exhaustion. -/
def fetchLoop (page : Nat → List SavedItem) (cutoff : Int) :
    Nat → Nat → List String → Option (List Nat × FetchResult)
  | 0, _, _ => none
  | fuel + 1, offset, acc =>
    let items := page offset
    if items = [] then some ([offset], .ok acc)
    else
      match scanItems cutoff items acc with
      | .raise => some ([offset], .raised)
      | .earlyReturn r => some ([offset], .ok r)
      | .next r =>
        match fetchLoop page cutoff fuel (offset + items.length) r with
        | none => none
        | some (reqs, res) => some (offset :: reqs, res)

/-- `fetch_liked_tracks(sp, months)`. -/
def fetch_liked_tracks (page : Nat → List SavedItem) (now : Int) (months : Nat) (fuel : Nat) :
    Option (List Nat × FetchResult) :=
  fetchLoop page (cutoffOf now months) fuel 0 []

/-! ### `get_all_user_playlists` (lines 43–55) -/

def playlistsLoop (page : Nat → PlaylistsResp) :
    Nat → Nat → List Playlist → Option (List Nat × List Playlist)
  | 0, _, _ => none
  | fuel + 1, offset, acc =>
    let items := (page offset).items
    if items = [] then some ([offset], acc)
    else
      match playlistsLoop page fuel (offset + items.length) (acc ++ items) with
      | none => none
      | some (reqs, res) => some (offset :: reqs, res)

def get_all_user_playlists (page : Nat → PlaylistsResp) (fuel : Nat) :
    Option (List Nat × List Playlist) :=
  playlistsLoop page fuel 0 []

/-! ### `find_or_create_playlist` (lines 58–70) -/

inductive FindOut where
  | found (id : String)
  | notFound
deriving DecidableEq

/-- The paged search loop of `find_or_create_playlist`: first page item with
matching name and owner wins; `break` when `next` is null; note the source
advances the offset by the constant 50. -/
def findLoop (page : Nat → PlaylistsResp) (user_id name : String) :
    Nat → Nat → Option (List Nat × FindOut)
  | 0, _ => none
  | fuel + 1, offset =>
    let resp := page offset
    match resp.items.find? (fun pl => pl.name == name && pl.owner == user_id) with
    | some pl => some ([offset], .found pl.id)
    | none =>
      if resp.next = false then some ([offset], .notFound)
      else
        match findLoop page user_id name fuel (offset + 50) with
        | none => none
        | some (reqs, out) => some (offset :: reqs, out)

/-- `find_or_create_playlist(sp, user_id, name)`: `createId` is the id the
service would assign on `user_playlist_create(user=user_id, name, public=False)`;
the returned list records the create calls issued. -/
def find_or_create_playlist (page : Nat → PlaylistsResp) (createId : String)
    (user_id name : String) (fuel : Nat) : Option (List Nat × String × List CreateCall) :=
  match findLoop page user_id name fuel 0 with
  | none => none
  | some (reqs, .found pid) => some (reqs, pid, [])
  | some (reqs, .notFound) => some (reqs, createId, [⟨user_id, name, false⟩])

/-- `find_or_create_playlist` run against remote state `l` (the owner's
playlists), together with the remote effect of the create call: the service
appends a private playlist named `name`, owned by `user`, with fresh id
`freshId`.  Returns the identifier, the create calls issued, and the
resulting remote state. -/
def runFindOrCreate (l : List Playlist) (freshId user name : String) (fuel : Nat) :
    Option (String × List CreateCall × List Playlist) :=
  match find_or_create_playlist (respOf l 50) freshId user name fuel with
  | none => none
  | some (_, pid, []) => some (pid, [], l)
  | some (_, pid, cs) => some (pid, cs, l ++ [⟨freshId, name, user⟩])

/-! ### `get_playlist_track_ids` (lines 72–82) -/

/-- The paged loop of `get_playlist_track_ids`.  A page item is the `track`
field of a playlist entry: `none` models a null track, which the source
filters out (`if track["track"]`). -/
def getIdsLoop (page : Nat → List (Option String)) :
    Nat → Nat → List String → Option (List Nat × List String)
  | 0, _, _ => none
  | fuel + 1, offset, acc =>
    let items := page offset
    if items = [] then some ([offset], acc)
    else
      match getIdsLoop page fuel (offset + items.length) (acc ++ items.filterMap id) with
      | none => none
      | some (reqs, res) => some (offset :: reqs, res)

def get_playlist_track_ids (page : Nat → List (Option String)) (fuel : Nat) :
    Option (List Nat × List String) :=
  getIdsLoop page fuel 0 []

/-! ### `update_playlist_if_needed` (lines 84–96) -/

/-- Python `range(start, stop, step)` for positive `step`. -/
def pyRange (start stop step : Nat) : List Nat :=
  List.range' start ((stop - start + step - 1) / step) step

/-- `update_playlist_if_needed(sp, playlist_id, new_track_ids)`: reads the
current ids, compares as sets, and either does nothing or issues one
`playlist_replace_items` with the first 100 ids followed by
`playlist_add_items` calls with each further chunk of up to 100. -/
def update_playlist_if_needed (page : Nat → List (Option String)) (new_track_ids : List String)
    (fuel : Nat) : Option (Outcome × List WriteCall) :=
  match get_playlist_track_ids page fuel with
  | none => none
  | some (_, existing_ids) =>
    if existing_ids.toFinset = new_track_ids.toFinset then
      some (.noChangeNeeded, [])
    else
      some (.updated new_track_ids.length,
        .replace (new_track_ids.take 100) ::
          (pyRange 100 new_track_ids.length 100).map
            (fun i => .append ((new_track_ids.drop i).take 100)))

/-- Remote effect of a write call on a playlist's entry list (spec section 6:
replace clears and sets, append extends). -/
def applyWrite (st : List (Option String)) : WriteCall → List (Option String)
  | .replace ids => ids.map some
  | .append ids => st ++ ids.map some

def applyWrites (st : List (Option String)) (ws : List WriteCall) : List (Option String) :=
  ws.foldl applyWrite st

/-! ### `main` (lines 98–132) -/

def MONTHS_BACK : Nat := 12

def PLURAL : String := if MONTHS_BACK > 1 then "s" else ""

def ROTATION_NAME : String := "Rotation: Last " ++ toString MONTHS_BACK ++ " Month" ++ PLURAL

/-- The target-selection loop in `main` (lines 119–124): first playlist whose
name equals `ROTATION_NAME`; the owner is not inspected. -/
def mainSelectTarget : List Playlist → Option String
  | [] => none
  | pl :: rest => if pl.name == ROTATION_NAME then some pl.id else mainSelectTarget rest

/-- The remote service state one run of `main` observes. -/
structure RemoteState where
  saved : List SavedItem
  playlists : List Playlist
  tracksOf : String → List (Option String)
  userId : String
  freshId : String

inductive MainOutcome where
  | raisedInFetch
  | skippedEmptyListing (found : Nat)
  | completed (outcome : Outcome)
deriving DecidableEq

structure MainTrace where
  outcome : MainOutcome
  creates : List CreateCall
  writes : List WriteCall
deriving DecidableEq

/-- One run of `main`: fetch the window, list the playlists, skip everything
with a warning when the listing is empty, otherwise select by name and
find-or-create + update when the name scan found nothing. -/
def mainRun (st : RemoteState) (now : Int) (fuel : Nat) : Option MainTrace :=
  match fetch_liked_tracks (pageOf st.saved 50) now MONTHS_BACK fuel with
  | none => none
  | some (_, .raised) => some ⟨.raisedInFetch, [], []⟩
  | some (_, .ok track_ids) =>
    match get_all_user_playlists (respOf st.playlists 50) fuel with
    | none => none
    | some (_, playlists) =>
      if playlists.length < 1 then some ⟨.skippedEmptyListing track_ids.length, [], []⟩
      else
        match mainSelectTarget playlists with
        | some target =>
          match update_playlist_if_needed (pageOf (st.tracksOf target) 100) track_ids fuel with
          | none => none
          | some (outc, ws) => some ⟨.completed outc, [], ws⟩
        | none =>
          match find_or_create_playlist (respOf st.playlists 50) st.freshId st.userId
              ROTATION_NAME fuel with
          | none => none
          | some (_, target, creates) =>
            match update_playlist_if_needed (pageOf (st.tracksOf target) 100) track_ids fuel with
            | none => none
            | some (outc, ws) => some ⟨.completed outc, creates, ws⟩

/-- Window-membership predicate used to state properties of
`fetch_liked_tracks`: the entry parses and lies at or after the cutoff. -/
def inWindow (cutoff : Int) (it : SavedItem) : Bool :=
  match parseAddedAt it.added_at with
  | some t => cutoff ≤ t
  | none => false

/-- `b` was added no later than `a` (vacuous when either side fails to
parse); listing `a` before `b` in this order is "newest-first". -/
def olderOrEq (b a : SavedItem) : Bool :=
  match parseAddedAt a.added_at, parseAddedAt b.added_at with
  | some ta, some tb => tb ≤ ta
  | _, _ => true

/-! ### Concrete instances used in witnesses and counterexamples -/

/-- 250 distinct track ids. -/
def sample250 : List String := (List.range 250).map (fun n => "t" ++ toString n)

/-- A saved-tracks page function whose first page holds one in-window item
(relative to cutoff 0). -/
def onePageSaved : Nat → List SavedItem :=
  fun o => if o = 0 then [⟨"2030-01-01T00:00:00Z", "a"⟩] else []

/-- A playlists listing that serves a short page (1 item) while still
reporting a further page: pages are `[q]`, then empty. -/
def shortPageListing : Nat → PlaylistsResp :=
  fun o => if o = 0 then ⟨[⟨"q", "qq", "qq"⟩], true⟩ else ⟨[], false⟩

end RotMgr

namespace RotMgr

/-! ### List helper lemmas -/

lemma drop_take_length (X : List α) (n : Nat) : X.drop (X.take n).length = X.drop n := by
  rcases le_or_lt n X.length with h | h
  · rw [List.length_take, Nat.min_eq_left h]
  · rw [List.length_take, Nat.min_eq_right h.le, List.drop_eq_nil_of_le le_rfl,
      List.drop_eq_nil_of_le h.le]

lemma take_append_drop_take (X : List α) (n : Nat) :
    X.take n ++ X.drop (X.take n).length = X := by
  rw [drop_take_length, List.take_append_drop]

lemma drop_nonempty_of_page {l : List α} {limit offset : Nat}
    (h : pageOf l limit offset ≠ []) : offset < l.length := by
  by_contra hc
  push_neg at hc
  have : l.drop offset = [] := List.drop_eq_nil_of_le hc
  simp [pageOf, this] at h

/-! ### Scan lemmas for `scanItems` -/

lemma scanItems_all (c : Int) :
    ∀ (items : List SavedItem) (acc : List String),
      (∀ it ∈ items, inWindow c it = true) →
      scanItems c items acc = .next (acc ++ items.map (·.track_id)) := by
  intro items
  induction items with
  | nil => intro acc _; simp [scanItems]
  | cons it rest ih =>
    intro acc hall
    have hit := hall it (by simp)
    unfold inWindow at hit
    rcases hp : parseAddedAt it.added_at with _ | t
    · rw [hp] at hit; simp at hit
    · rw [hp] at hit
      simp only [decide_eq_true_eq] at hit
      have hle : c ≤ t := by simpa using hit
      simp only [scanItems, hp, if_pos hle]
      rw [ih (acc ++ [it.track_id]) (fun x hx => hall x (by simp [hx]))]
      simp

lemma scanItems_early (c : Int) :
    ∀ (pre : List SavedItem) (bad : SavedItem) (rest : List SavedItem) (acc : List String) (t : Int),
      (∀ it ∈ pre, inWindow c it = true) →
      parseAddedAt bad.added_at = some t → t < c →
      scanItems c (pre ++ bad :: rest) acc = .earlyReturn (acc ++ pre.map (·.track_id)) := by
  intro pre
  induction pre with
  | nil =>
    intro bad rest acc t _ hb ht
    simp only [List.nil_append, scanItems, hb, if_neg (by omega : ¬ c ≤ t)]
    simp
  | cons it pre' ih =>
    intro bad rest acc t hall hb ht
    have hit := hall it (by simp)
    unfold inWindow at hit
    rcases hp : parseAddedAt it.added_at with _ | u
    · rw [hp] at hit; simp at hit
    · rw [hp] at hit
      have hle : c ≤ u := by simpa using hit
      simp only [List.cons_append, scanItems, hp, if_pos hle, List.append_eq]
      rw [ih bad rest (acc ++ [it.track_id]) t (fun x hx => hall x (by simp [hx])) hb ht]
      simp

lemma scanItems_raise (c : Int) :
    ∀ (pre : List SavedItem) (bad : SavedItem) (rest : List SavedItem) (acc : List String),
      (∀ it ∈ pre, inWindow c it = true) →
      parseAddedAt bad.added_at = none →
      scanItems c (pre ++ bad :: rest) acc = .raise := by
  intro pre
  induction pre with
  | nil =>
    intro bad rest acc _ hb
    simp [scanItems, hb]
  | cons it pre' ih =>
    intro bad rest acc hall hb
    have hit := hall it (by simp)
    unfold inWindow at hit
    rcases hp : parseAddedAt it.added_at with _ | u
    · rw [hp] at hit; simp at hit
    · rw [hp] at hit
      have hle : c ≤ u := by simpa using hit
      simp only [List.cons_append, scanItems, hp, if_pos hle, List.append_eq]
      exact ih bad rest (acc ++ [it.track_id]) (fun x hx => hall x (by simp [hx])) hb

lemma scanItems_tag (c : Int) :
    ∀ (items : List SavedItem) (acc₁ acc₂ : List String),
      scanTag (scanItems c items acc₁) = scanTag (scanItems c items acc₂) := by
  intro items
  induction items with
  | nil => intro _ _; rfl
  | cons it rest ih =>
    intro acc₁ acc₂
    rcases hp : parseAddedAt it.added_at with _ | t
    · simp [scanItems, hp]
    · by_cases hle : c ≤ t
      · simp only [scanItems, hp, if_pos hle]; exact ih _ _
      · simp [scanItems, scanTag, hp, if_neg hle]

end RotMgr

namespace RotMgr

/-! ### takeWhile helper lemmas -/

lemma takeWhile_split (p : α → Bool) :
    ∀ (n : Nat) (X : List α), (∀ x ∈ X.take n, p x = true) →
      X.takeWhile p = X.take n ++ (X.drop n).takeWhile p := by
  intro n
  induction n with
  | zero => intro X _; simp
  | succ m ih =>
    intro X hall
    cases X with
    | nil => simp
    | cons x xs =>
      have hx : p x = true := hall x (by simp)
      simp only [List.takeWhile_cons, List.take_succ_cons, List.drop_succ_cons,
        List.cons_append]
      rw [if_pos hx, ih xs (fun y hy => hall y (by simp [hy]))]

lemma takeWhile_take_stops (p : α → Bool) :
    ∀ (X : List α) (n : Nat), (X.take n).takeWhile p ≠ X.take n →
      X.takeWhile p = (X.take n).takeWhile p := by
  intro X
  induction X with
  | nil => intro n h; simp at h
  | cons x xs ih =>
    intro n h
    cases n with
    | zero => simp at h
    | succ m =>
      simp only [List.take_succ_cons, List.takeWhile_cons] at h ⊢
      by_cases hx : p x = true
      · rw [if_pos hx] at h ⊢
        rw [if_pos hx]
        have hm : (xs.take m).takeWhile p ≠ xs.take m := by
          intro he; exact h (by rw [he])
        rw [ih m hm]
      · rw [if_neg hx, if_neg hx]

lemma exists_first_fail (p : α → Bool) :
    ∀ (l : List α), (¬ ∀ x ∈ l, p x = true) →
      ∃ pre bad rest, l = pre ++ bad :: rest ∧ (∀ x ∈ pre, p x = true) ∧
        p bad = false ∧ l.takeWhile p = pre := by
  intro l
  induction l with
  | nil => intro h; exact absurd (by simp) h
  | cons x xs ih =>
    intro h
    by_cases hx : p x = true
    · have hxs : ¬ ∀ y ∈ xs, p y = true := by
        intro hall; exact h (by
          intro y hy
          rcases List.mem_cons.mp hy with rfl | hy'
          · exact hx
          · exact hall y hy')
      obtain ⟨pre, bad, rest, heq, hpre, hbad, htw⟩ := ih hxs
      exact ⟨x :: pre, bad, rest, by simp [heq], by
        intro y hy
        rcases List.mem_cons.mp hy with rfl | hy'
        · exact hx
        · exact hpre y hy', hbad, by simp [List.takeWhile_cons, hx, htw]⟩
    · refine ⟨[], x, xs, by simp, by simp, by simpa using hx, ?_⟩
      simp [List.takeWhile_cons, hx]

lemma takeWhile_eq_filter_of_pairwise (p : α → Bool) :
    ∀ (l : List α), l.Pairwise (fun a b => p b = true → p a = true) →
      l.takeWhile p = l.filter p := by
  intro l
  induction l with
  | nil => intro _; rfl
  | cons x xs ih =>
    intro hp
    rcases List.pairwise_cons.mp hp with ⟨hx, hxs⟩
    by_cases hpx : p x = true
    · rw [List.takeWhile_cons, List.filter_cons, if_pos hpx, if_pos hpx, ih hxs]
    · have hnil : xs.filter p = [] := by
        rw [List.filter_eq_nil_iff]
        intro y hy hpy
        exact hpx (hx y hy hpy)
      rw [List.takeWhile_cons, List.filter_cons, if_neg hpx, if_neg hpx, hnil]

/-! ### Characterization of `get_playlist_track_ids` over the concrete
pagination model -/

lemma getIdsLoop_char (l : List (Option String)) :
    ∀ (fuel offset : Nat) (acc : List String), l.length - offset < fuel →
      ∃ reqs, getIdsLoop (pageOf l 100) fuel offset acc =
        some (reqs, acc ++ (l.drop offset).filterMap id) := by
  intro fuel
  induction fuel with
  | zero => intro offset acc h; omega
  | succ f ih =>
    intro offset acc h
    by_cases hpage : pageOf l 100 offset = []
    · have hdrop : l.drop offset = [] := by
        rcases List.take_eq_nil_iff.mp hpage with h100 | hd
        · omega
        · exact hd
      exact ⟨[offset], by simp [getIdsLoop, hpage, hdrop]⟩
    · have hoff : offset < l.length := drop_nonempty_of_page hpage
      have hlen : 0 < (pageOf l 100 offset).length := List.length_pos.mpr hpage
      obtain ⟨reqs', hrec⟩ := ih (offset + (pageOf l 100 offset).length)
        (acc ++ (pageOf l 100 offset).filterMap id) (by omega)
      have hdd : l.drop (offset + (pageOf l 100 offset).length) =
          (l.drop offset).drop (pageOf l 100 offset).length := by
        rw [List.drop_drop, Nat.add_comm]
      have key : (acc ++ (pageOf l 100 offset).filterMap id) ++
          (l.drop (offset + (pageOf l 100 offset).length)).filterMap id =
          acc ++ (l.drop offset).filterMap id := by
        rw [List.append_assoc, ← List.filterMap_append, hdd]
        unfold pageOf
        rw [take_append_drop_take]
      refine ⟨offset :: reqs', ?_⟩
      simp only [getIdsLoop, if_neg hpage, hrec, key]

end RotMgr

namespace RotMgr

/-! ### Characterizations of `fetch_liked_tracks` over the concrete
pagination model -/

/-- When every library entry parses, the fetch loop returns the ids of the
longest prefix of in-window entries (`takeWhile`). -/
lemma fetchLoop_ok (l : List SavedItem) (c : Int)
    (hp : ∀ it ∈ l, (parseAddedAt it.added_at).isSome = true) :
    ∀ (fuel offset : Nat) (acc : List String), l.length - offset < fuel →
      ∃ reqs, fetchLoop (pageOf l 50) c fuel offset acc =
        some (reqs, .ok (acc ++ ((l.drop offset).takeWhile (inWindow c)).map (·.track_id))) := by
  intro fuel
  induction fuel with
  | zero => intro offset acc h; omega
  | succ f ih =>
    intro offset acc h
    by_cases hpage : pageOf l 50 offset = []
    · have hdrop : l.drop offset = [] := by
        rcases List.take_eq_nil_iff.mp hpage with h50 | hd
        · omega
        · exact hd
      exact ⟨[offset], by simp [fetchLoop, hpage, hdrop]⟩
    · have hoff : offset < l.length := drop_nonempty_of_page hpage
      have hlen : 0 < (pageOf l 50 offset).length := List.length_pos.mpr hpage
      by_cases hall : ∀ it ∈ pageOf l 50 offset, inWindow c it = true
      · have hscan := scanItems_all c (pageOf l 50 offset) acc hall
        obtain ⟨reqs', hrec⟩ := ih (offset + (pageOf l 50 offset).length)
          (acc ++ (pageOf l 50 offset).map (·.track_id)) (by omega)
        have hdd : l.drop (offset + (pageOf l 50 offset).length) =
            (l.drop offset).drop (pageOf l 50 offset).length := by
          rw [List.drop_drop, Nat.add_comm]
        have htw : (l.drop offset).takeWhile (inWindow c) =
            pageOf l 50 offset ++
              (l.drop (offset + (pageOf l 50 offset).length)).takeWhile (inWindow c) := by
          rw [hdd]
          show (l.drop offset).takeWhile _ = (l.drop offset).take 50 ++
            ((l.drop offset).drop ((l.drop offset).take 50).length).takeWhile _
          rw [drop_take_length]
          exact takeWhile_split (inWindow c) 50 (l.drop offset) hall
        refine ⟨offset :: reqs', ?_⟩
        simp only [fetchLoop, if_neg hpage, hscan, hrec]
        rw [htw]
        simp [List.append_assoc]
      · obtain ⟨pre, bad, rest, heq, hpre, hbad, htw⟩ := exists_first_fail (inWindow c) _ hall
        have hbadmem : bad ∈ l := by
          have hmem : bad ∈ pageOf l 50 offset := by rw [heq]; simp
          exact List.drop_subset offset l (List.take_subset 50 (l.drop offset) hmem)
        have hsome := hp bad hbadmem
        rcases hps : parseAddedAt bad.added_at with _ | t
        · rw [hps] at hsome; simp at hsome
        · have ht : t < c := by
            unfold inWindow at hbad
            rw [hps] at hbad
            simp at hbad
            omega
          have hscan : scanItems c (pageOf l 50 offset) acc =
              .earlyReturn (acc ++ pre.map (·.track_id)) := by
            rw [heq]
            exact scanItems_early c pre bad _ acc t hpre hps ht
          have hne : (pageOf l 50 offset).takeWhile (inWindow c) ≠ pageOf l 50 offset := by
            rw [htw, heq]
            intro hcontra
            have hlencontra := congrArg List.length hcontra
            simp at hlencontra
          have hXtw : (l.drop offset).takeWhile (inWindow c) = pre := by
            have h2 := takeWhile_take_stops (inWindow c) (l.drop offset) 50 hne
            rw [h2]
            exact htw
          refine ⟨[offset], ?_⟩
          simp only [fetchLoop, if_neg hpage, hscan]
          rw [hXtw]

/-- If the entries before some entry `bad` are all in-window and `bad` parses
to a time before the cutoff, the fetch loop early-returns the prefix ids on
the page containing `bad`, having made `pre.length / 50 + 1` page requests. -/
lemma fetchLoop_early (l : List SavedItem) (c : Int) :
    ∀ (fuel offset : Nat) (acc : List String) (pre : List SavedItem) (bad : SavedItem)
      (rest : List SavedItem) (t : Int),
      l.drop offset = pre ++ bad :: rest →
      (∀ it ∈ pre, inWindow c it = true) →
      parseAddedAt bad.added_at = some t → t < c →
      pre.length < 50 * fuel →
      ∃ reqs, fetchLoop (pageOf l 50) c fuel offset acc =
        some (reqs, .ok (acc ++ pre.map (·.track_id))) ∧
        reqs.length = pre.length / 50 + 1 := by
  intro fuel
  induction fuel with
  | zero => intro offset acc pre bad rest t _ _ _ _ hf; omega
  | succ f ih =>
    intro offset acc pre bad rest t hsplit hpre hbad ht hfuel
    have hpagene : pageOf l 50 offset ≠ [] := by
      unfold pageOf
      rw [hsplit]
      intro hc
      rcases List.take_eq_nil_iff.mp hc with h50 | hd
      · omega
      · simp at hd
    by_cases hlt : pre.length < 50
    · have hpage : pageOf l 50 offset = pre ++ bad :: rest.take (50 - pre.length - 1) := by
        unfold pageOf
        rw [hsplit, List.take_append_eq_append_take, List.take_of_length_le (by omega)]
        congr 1
        rw [show 50 - pre.length = (50 - pre.length - 1) + 1 by omega, List.take_succ_cons]
        simp
      have hscan : scanItems c (pageOf l 50 offset) acc =
          .earlyReturn (acc ++ pre.map (·.track_id)) := by
        rw [hpage]
        exact scanItems_early c pre bad _ acc t hpre hbad ht
      refine ⟨[offset], ?_, by simp; omega⟩
      simp only [fetchLoop, if_neg hpagene, hscan]
    · push_neg at hlt
      have hpage : pageOf l 50 offset = pre.take 50 := by
        unfold pageOf
        rw [hsplit, List.take_append_eq_append_take, show 50 - pre.length = 0 by omega]
        simp
      have hlenpage : (pageOf l 50 offset).length = 50 := by
        rw [hpage, List.length_take, Nat.min_eq_left hlt]
      have hallpage : ∀ it ∈ pageOf l 50 offset, inWindow c it = true := by
        rw [hpage]
        intro it hit
        exact hpre it (List.take_subset 50 pre hit)
      have hscan := scanItems_all c (pageOf l 50 offset) acc hallpage
      have hsplit' : l.drop (offset + 50) = pre.drop 50 ++ bad :: rest := by
        rw [← List.drop_drop, hsplit,
          List.drop_append_eq_append_drop, show 50 - pre.length = 0 by omega]
        simp
      obtain ⟨reqs', hrec, hcount⟩ := ih (offset + 50)
        (acc ++ (pageOf l 50 offset).map (·.track_id)) (pre.drop 50) bad rest t hsplit'
        (fun x hx => hpre x (List.drop_subset 50 pre hx)) hbad ht
        (by rw [List.length_drop]; omega)
      have hcat : (acc ++ (pageOf l 50 offset).map (·.track_id)) ++
          (pre.drop 50).map (·.track_id) = acc ++ pre.map (·.track_id) := by
        rw [hpage, List.append_assoc, ← List.map_append, List.take_append_drop]
      refine ⟨offset :: reqs', ?_, ?_⟩
      · simp only [fetchLoop, if_neg hpagene, hscan, hlenpage, hrec, hcat]
      · simp only [List.length_cons, hcount, List.length_drop]
        omega

/-- If the entries before some entry `bad` are all in-window and `bad` fails
to parse, the fetch loop raises on the page containing `bad`. -/
lemma fetchLoop_raise (l : List SavedItem) (c : Int) :
    ∀ (fuel offset : Nat) (acc : List String) (pre : List SavedItem) (bad : SavedItem)
      (rest : List SavedItem),
      l.drop offset = pre ++ bad :: rest →
      (∀ it ∈ pre, inWindow c it = true) →
      parseAddedAt bad.added_at = none →
      pre.length < 50 * fuel →
      ∃ reqs, fetchLoop (pageOf l 50) c fuel offset acc = some (reqs, .raised) ∧
        reqs.length = pre.length / 50 + 1 := by
  intro fuel
  induction fuel with
  | zero => intro offset acc pre bad rest _ _ _ hf; omega
  | succ f ih =>
    intro offset acc pre bad rest hsplit hpre hbad hfuel
    have hpagene : pageOf l 50 offset ≠ [] := by
      unfold pageOf
      rw [hsplit]
      intro hc
      rcases List.take_eq_nil_iff.mp hc with h50 | hd
      · omega
      · simp at hd
    by_cases hlt : pre.length < 50
    · have hpage : pageOf l 50 offset = pre ++ bad :: rest.take (50 - pre.length - 1) := by
        unfold pageOf
        rw [hsplit, List.take_append_eq_append_take, List.take_of_length_le (by omega)]
        congr 1
        rw [show 50 - pre.length = (50 - pre.length - 1) + 1 by omega, List.take_succ_cons]
        simp
      have hscan : scanItems c (pageOf l 50 offset) acc = .raise := by
        rw [hpage]
        exact scanItems_raise c pre bad _ acc hpre hbad
      refine ⟨[offset], ?_, by simp; omega⟩
      simp only [fetchLoop, if_neg hpagene, hscan]
    · push_neg at hlt
      have hpage : pageOf l 50 offset = pre.take 50 := by
        unfold pageOf
        rw [hsplit, List.take_append_eq_append_take, show 50 - pre.length = 0 by omega]
        simp
      have hlenpage : (pageOf l 50 offset).length = 50 := by
        rw [hpage, List.length_take, Nat.min_eq_left hlt]
      have hallpage : ∀ it ∈ pageOf l 50 offset, inWindow c it = true := by
        rw [hpage]
        intro it hit
        exact hpre it (List.take_subset 50 pre hit)
      have hscan := scanItems_all c (pageOf l 50 offset) acc hallpage
      have hsplit' : l.drop (offset + 50) = pre.drop 50 ++ bad :: rest := by
        rw [← List.drop_drop, hsplit,
          List.drop_append_eq_append_drop, show 50 - pre.length = 0 by omega]
        simp
      obtain ⟨reqs', hrec, hcount⟩ := ih (offset + 50)
        (acc ++ (pageOf l 50 offset).map (·.track_id)) (pre.drop 50) bad rest hsplit'
        (fun x hx => hpre x (List.drop_subset 50 pre hx)) hbad
        (by rw [List.length_drop]; omega)
      refine ⟨offset :: reqs', ?_, ?_⟩
      · simp only [fetchLoop, if_neg hpagene, hscan, hlenpage, hrec]
      · simp only [List.length_cons, hcount, List.length_drop]
        omega

end RotMgr

namespace RotMgr

/-! ### Characterization of the locator's search over the concrete
pagination model -/

lemma findLoop_char (l : List Playlist) (user name : String) :
    ∀ (fuel offset : Nat), l.length ≤ offset + 50 * fuel → 0 < fuel →
      ∃ reqs, findLoop (respOf l 50) user name fuel offset =
        some (reqs,
          match (l.drop offset).find? (fun pl => pl.name == name && pl.owner == user) with
          | some pl => .found pl.id
          | none => .notFound) := by
  intro fuel
  induction fuel with
  | zero => intro offset _ hf; omega
  | succ f ih =>
    intro offset hlen _
    have hitems : (respOf l 50 offset).items = (l.drop offset).take 50 := rfl
    cases hfind : (respOf l 50 offset).items.find?
        (fun pl => pl.name == name && pl.owner == user) with
    | some pl =>
      have hfindX : (l.drop offset).find? (fun pl => pl.name == name && pl.owner == user) =
          some pl := by
        conv_lhs => rw [← List.take_append_drop 50 (l.drop offset)]
        rw [List.find?_append, ← hitems, hfind]
        rfl
      refine ⟨[offset], ?_⟩
      rw [hfindX]
      simp only [findLoop, hfind]
    | none =>
      have hfindX : ((l.drop offset).take 50).find?
          (fun pl => pl.name == name && pl.owner == user) = none := by
        rw [← hitems]; exact hfind
      by_cases hnext : offset + 50 < l.length
      · have hf : 0 < f := by omega
        obtain ⟨reqs', hrec⟩ := ih (offset + 50) (by omega) hf
        have hdd : l.drop (offset + 50) = (l.drop offset).drop 50 := by
          rw [← List.drop_drop]
        have hfull : (l.drop offset).find? (fun pl => pl.name == name && pl.owner == user) =
            (l.drop (offset + 50)).find? (fun pl => pl.name == name && pl.owner == user) := by
          conv_lhs => rw [← List.take_append_drop 50 (l.drop offset)]
          rw [List.find?_append, hfindX, hdd]
          rfl
        refine ⟨offset :: reqs', ?_⟩
        rw [hfull]
        simp only [findLoop, hfind]
        rw [if_neg (by simp [respOf, hnext])]
        rw [hrec]
      · have hXfull : (l.drop offset).take 50 = l.drop offset := by
          apply List.take_of_length_le
          rw [List.length_drop]
          omega
        have hfindD : (l.drop offset).find? (fun pl => pl.name == name && pl.owner == user) =
            none := by
          rw [← hXfull]; exact hfindX
        refine ⟨[offset], ?_⟩
        rw [hfindD]
        simp only [findLoop, hfind]
        rw [if_pos (by simp [respOf, hnext])]

/-! ### Chunking lemmas for the replace/append protocol -/

lemma join_chunks (ids : List String) :
    ∀ (k i : Nat), ids.length ≤ i + 100 * k →
      ((List.range' i k 100).map (fun j => (ids.drop j).take 100)).flatten = ids.drop i := by
  intro k
  induction k with
  | zero =>
    intro i h
    simp [List.drop_eq_nil_of_le (by omega : ids.length ≤ i)]
  | succ m ih =>
    intro i h
    rw [List.range'_succ]
    simp only [List.map_cons, List.flatten_cons]
    rw [ih (i + 100) (by omega), ← List.drop_drop]
    exact List.take_append_drop 100 (ids.drop i)

lemma take_join_chunks (ids : List String) :
    ids.take 100 ++ ((pyRange 100 ids.length 100).map (fun j => (ids.drop j).take 100)).flatten
      = ids := by
  unfold pyRange
  rw [join_chunks ids _ 100 (by omega)]
  exact List.take_append_drop 100 ids

lemma applyWrites_appends (chunks : List (List String)) :
    ∀ (s : List (Option String)),
      applyWrites s (chunks.map WriteCall.append) = s ++ chunks.flatten.map some := by
  induction chunks with
  | nil => intro s; simp [applyWrites]
  | cons cchunk rest ih =>
    intro s
    show applyWrites (applyWrite s (.append cchunk)) (rest.map .append) = _
    rw [show applyWrite s (.append cchunk) = s ++ cchunk.map some from rfl, ih]
    simp

lemma applyWrites_replace_appends (st : List (Option String)) (first : List String)
    (chunks : List (List String)) :
    applyWrites st (.replace first :: chunks.map .append) = (first ++ chunks.flatten).map some := by
  show applyWrites (applyWrite st (.replace first)) (chunks.map .append) = _
  rw [show applyWrite st (.replace first) = first.map some from rfl, applyWrites_appends]
  simp

/-- Applying the full write sequence that `update_playlist_if_needed` issues
leaves exactly the desired ids in the playlist. -/
lemma applyWrites_update (st : List (Option String)) (desired : List String) :
    applyWrites st (.replace (desired.take 100) ::
      (pyRange 100 desired.length 100).map (fun i => .append ((desired.drop i).take 100)))
      = desired.map some := by
  have hmm : (pyRange 100 desired.length 100).map
        (fun i => WriteCall.append ((desired.drop i).take 100))
      = ((pyRange 100 desired.length 100).map (fun j => (desired.drop j).take 100)).map
          .append := by
    rw [List.map_map]
    rfl
  rw [hmm, applyWrites_replace_appends, take_join_chunks]

end RotMgr

namespace RotMgr

/-! ### Request-sequence lemmas: how each paged loop advances its offset and
when it stops -/

lemma fetchLoop_requests (page : Nat → List SavedItem) (c : Int) :
    ∀ (fuel offset : Nat) (acc : List String) (reqs : List Nat) (out : FetchResult),
      fetchLoop page c fuel offset acc = some (reqs, out) →
      reqs.head? = some offset ∧
      reqs.Chain' (fun a b => b = a + (page a).length) ∧
      ∃ last, reqs.getLast? = some last ∧
        (page last = [] ∨ ∀ r, scanItems c (page last) [] ≠ .next r) := by
  intro fuel
  induction fuel with
  | zero => intro offset acc reqs out h; simp [fetchLoop] at h
  | succ f ih =>
    intro offset acc reqs out h
    by_cases hpage : page offset = []
    · rw [show fetchLoop page c (f + 1) offset acc = some ([offset], .ok acc) from by
        simp only [fetchLoop, if_pos hpage]] at h
      obtain ⟨h1, h2⟩ := Prod.mk.injEq .. ▸ Option.some.injEq .. ▸ h
      subst h1
      exact ⟨rfl, List.chain'_singleton offset, offset, rfl, Or.inl hpage⟩
    · cases hscan : scanItems c (page offset) acc with
      | raise =>
        rw [show fetchLoop page c (f + 1) offset acc = some ([offset], .raised) from by
          simp only [fetchLoop, if_neg hpage, hscan]] at h
        obtain ⟨h1, h2⟩ := Prod.mk.injEq .. ▸ Option.some.injEq .. ▸ h
        subst h1
        refine ⟨rfl, List.chain'_singleton offset, offset, rfl, Or.inr fun r hr => ?_⟩
        have htag := scanItems_tag c (page offset) [] acc
        rw [hr, hscan] at htag
        simp [scanTag] at htag
      | earlyReturn r0 =>
        rw [show fetchLoop page c (f + 1) offset acc = some ([offset], .ok r0) from by
          simp only [fetchLoop, if_neg hpage, hscan]] at h
        obtain ⟨h1, h2⟩ := Prod.mk.injEq .. ▸ Option.some.injEq .. ▸ h
        subst h1
        refine ⟨rfl, List.chain'_singleton offset, offset, rfl, Or.inr fun r hr => ?_⟩
        have htag := scanItems_tag c (page offset) [] acc
        rw [hr, hscan] at htag
        simp [scanTag] at htag
      | next r0 =>
        cases hrec : fetchLoop page c f (offset + (page offset).length) r0 with
        | none =>
          rw [show fetchLoop page c (f + 1) offset acc = none from by
            simp only [fetchLoop, if_neg hpage, hscan, hrec]] at h
          exact absurd h (by simp)
        | some pr =>
          obtain ⟨reqs', out'⟩ := pr
          rw [show fetchLoop page c (f + 1) offset acc = some (offset :: reqs', out') from by
            simp only [fetchLoop, if_neg hpage, hscan, hrec]] at h
          obtain ⟨h1, h2⟩ := Prod.mk.injEq .. ▸ Option.some.injEq .. ▸ h
          subst h1
          obtain ⟨hhead, hchain, last', hlast, hstop⟩ := ih _ _ _ _ hrec
          refine ⟨rfl, ?_, ?_⟩
          · rw [List.chain'_cons']
            refine ⟨fun y hy => ?_, hchain⟩
            rw [hhead] at hy
            simp at hy
            omega
          · cases reqs' with
            | nil => simp at hhead
            | cons b t =>
              exact ⟨last', by rw [List.getLast?_cons_cons]; exact hlast, hstop⟩

lemma playlistsLoop_requests (page : Nat → PlaylistsResp) :
    ∀ (fuel offset : Nat) (acc : List Playlist) (reqs : List Nat) (out : List Playlist),
      playlistsLoop page fuel offset acc = some (reqs, out) →
      reqs.head? = some offset ∧
      reqs.Chain' (fun a b => b = a + (page a).items.length) ∧
      ∃ last, reqs.getLast? = some last ∧ (page last).items = [] := by
  intro fuel
  induction fuel with
  | zero => intro offset acc reqs out h; simp [playlistsLoop] at h
  | succ f ih =>
    intro offset acc reqs out h
    by_cases hpage : (page offset).items = []
    · rw [show playlistsLoop page (f + 1) offset acc = some ([offset], acc) from by
        simp only [playlistsLoop, if_pos hpage]] at h
      obtain ⟨h1, h2⟩ := Prod.mk.injEq .. ▸ Option.some.injEq .. ▸ h
      subst h1
      exact ⟨rfl, List.chain'_singleton offset, offset, rfl, hpage⟩
    · cases hrec : playlistsLoop page f (offset + (page offset).items.length)
          (acc ++ (page offset).items) with
      | none =>
        rw [show playlistsLoop page (f + 1) offset acc = none from by
          simp only [playlistsLoop, if_neg hpage, hrec]] at h
        exact absurd h (by simp)
      | some pr =>
        obtain ⟨reqs', out'⟩ := pr
        rw [show playlistsLoop page (f + 1) offset acc = some (offset :: reqs', out') from by
          simp only [playlistsLoop, if_neg hpage, hrec]] at h
        obtain ⟨h1, h2⟩ := Prod.mk.injEq .. ▸ Option.some.injEq .. ▸ h
        subst h1
        obtain ⟨hhead, hchain, last', hlast, hstop⟩ := ih _ _ _ _ hrec
        refine ⟨rfl, ?_, ?_⟩
        · rw [List.chain'_cons']
          refine ⟨fun y hy => ?_, hchain⟩
          rw [hhead] at hy
          simp at hy
          omega
        · cases reqs' with
          | nil => simp at hhead
          | cons b t =>
            exact ⟨last', by rw [List.getLast?_cons_cons]; exact hlast, hstop⟩

lemma getIdsLoop_requests (page : Nat → List (Option String)) :
    ∀ (fuel offset : Nat) (acc : List String) (reqs : List Nat) (out : List String),
      getIdsLoop page fuel offset acc = some (reqs, out) →
      reqs.head? = some offset ∧
      reqs.Chain' (fun a b => b = a + (page a).length) ∧
      ∃ last, reqs.getLast? = some last ∧ page last = [] := by
  intro fuel
  induction fuel with
  | zero => intro offset acc reqs out h; simp [getIdsLoop] at h
  | succ f ih =>
    intro offset acc reqs out h
    by_cases hpage : page offset = []
    · rw [show getIdsLoop page (f + 1) offset acc = some ([offset], acc) from by
        simp only [getIdsLoop, if_pos hpage]] at h
      obtain ⟨h1, h2⟩ := Prod.mk.injEq .. ▸ Option.some.injEq .. ▸ h
      subst h1
      exact ⟨rfl, List.chain'_singleton offset, offset, rfl, hpage⟩
    · cases hrec : getIdsLoop page f (offset + (page offset).length)
          (acc ++ (page offset).filterMap id) with
      | none =>
        rw [show getIdsLoop page (f + 1) offset acc = none from by
          simp only [getIdsLoop, if_neg hpage, hrec]] at h
        exact absurd h (by simp)
      | some pr =>
        obtain ⟨reqs', out'⟩ := pr
        rw [show getIdsLoop page (f + 1) offset acc = some (offset :: reqs', out') from by
          simp only [getIdsLoop, if_neg hpage, hrec]] at h
        obtain ⟨h1, h2⟩ := Prod.mk.injEq .. ▸ Option.some.injEq .. ▸ h
        subst h1
        obtain ⟨hhead, hchain, last', hlast, hstop⟩ := ih _ _ _ _ hrec
        refine ⟨rfl, ?_, ?_⟩
        · rw [List.chain'_cons']
          refine ⟨fun y hy => ?_, hchain⟩
          rw [hhead] at hy
          simp at hy
          omega
        · cases reqs' with
          | nil => simp at hhead
          | cons b t =>
            exact ⟨last', by rw [List.getLast?_cons_cons]; exact hlast, hstop⟩

lemma findLoop_requests (page : Nat → PlaylistsResp) (user name : String) :
    ∀ (fuel offset : Nat) (reqs : List Nat) (out : FindOut),
      findLoop page user name fuel offset = some (reqs, out) →
      reqs.head? = some offset ∧
      reqs.Chain' (fun a b => b = a + 50) ∧
      ∃ last, reqs.getLast? = some last ∧
        ((∃ pl, (page last).items.find? (fun q => q.name == name && q.owner == user) = some pl) ∨
          (page last).next = false) := by
  intro fuel
  induction fuel with
  | zero => intro offset reqs out h; simp [findLoop] at h
  | succ f ih =>
    intro offset reqs out h
    cases hfind : (page offset).items.find? (fun q => q.name == name && q.owner == user) with
    | some pl =>
      rw [show findLoop page user name (f + 1) offset = some ([offset], .found pl.id) from by
        simp only [findLoop, hfind]] at h
      obtain ⟨h1, h2⟩ := Prod.mk.injEq .. ▸ Option.some.injEq .. ▸ h
      subst h1
      exact ⟨rfl, List.chain'_singleton offset, offset, rfl, Or.inl ⟨pl, hfind⟩⟩
    | none =>
      by_cases hnext : (page offset).next = false
      · rw [show findLoop page user name (f + 1) offset = some ([offset], .notFound) from by
          simp only [findLoop, hfind, if_pos hnext]] at h
        obtain ⟨h1, h2⟩ := Prod.mk.injEq .. ▸ Option.some.injEq .. ▸ h
        subst h1
        exact ⟨rfl, List.chain'_singleton offset, offset, rfl, Or.inr hnext⟩
      · cases hrec : findLoop page user name f (offset + 50) with
        | none =>
          rw [show findLoop page user name (f + 1) offset = none from by
            simp only [findLoop, hfind, if_neg hnext, hrec]] at h
          exact absurd h (by simp)
        | some pr =>
          obtain ⟨reqs', out'⟩ := pr
          rw [show findLoop page user name (f + 1) offset = some (offset :: reqs', out') from by
            simp only [findLoop, hfind, if_neg hnext, hrec]] at h
          obtain ⟨h1, h2⟩ := Prod.mk.injEq .. ▸ Option.some.injEq .. ▸ h
          subst h1
          obtain ⟨hhead, hchain, last', hlast, hstop⟩ := ih _ _ _ hrec
          refine ⟨rfl, ?_, ?_⟩
          · rw [List.chain'_cons']
            refine ⟨fun y hy => ?_, hchain⟩
            rw [hhead] at hy
            simp at hy
            omega
          · cases reqs' with
            | nil => simp at hhead
            | cons b t =>
              exact ⟨last', by rw [List.getLast?_cons_cons]; exact hlast, hstop⟩

end RotMgr

namespace RotMgr

/-! ## Claim theorems -/

/-- Claim C1: if the desired Track-Reference set equals the set currently in
the collection (order-insensitive, duplicates collapsed), reconcile issues
zero mutating calls and reports the no-change outcome; consequently a second
reconcile run over the state left by any first run (unchanged source window)
issues zero write calls and reports no-change. -/
theorem C1_reconcile_noop_and_idempotent (l : List (Option String)) (desired : List String)
    (fuel : Nat) (h1 : l.length < fuel) (h2 : desired.length < fuel) :
    ((l.filterMap id).toFinset = desired.toFinset →
      update_playlist_if_needed (pageOf l 100) desired fuel = some (.noChangeNeeded, [])) ∧
    (∀ (outc : Outcome) (ws : List WriteCall),
      update_playlist_if_needed (pageOf l 100) desired fuel = some (outc, ws) →
      update_playlist_if_needed (pageOf (applyWrites l ws) 100) desired fuel =
        some (.noChangeNeeded, [])) := by
  have hupd : ∀ (m : List (Option String)), m.length < fuel →
      (m.filterMap id).toFinset = desired.toFinset →
      update_playlist_if_needed (pageOf m 100) desired fuel = some (.noChangeNeeded, []) := by
    intro m hm hset
    obtain ⟨reqs', hids'⟩ := getIdsLoop_char m fuel 0 [] (by omega)
    simp only [List.drop_zero, List.nil_append] at hids'
    simp only [update_playlist_if_needed, get_playlist_track_ids, hids']
    rw [if_pos hset]
  refine ⟨hupd l h1, ?_⟩
  intro outc ws hrun
  obtain ⟨reqs, hids⟩ := getIdsLoop_char l fuel 0 [] (by omega)
  simp only [List.drop_zero, List.nil_append] at hids
  by_cases hset : (l.filterMap id).toFinset = desired.toFinset
  · have hfirst := hupd l h1 hset
    rw [hrun] at hfirst
    obtain ⟨ho, hw⟩ := Prod.mk.injEq .. ▸ Option.some.injEq .. ▸ hfirst
    subst hw
    exact hupd l h1 hset
  · simp only [update_playlist_if_needed, get_playlist_track_ids, hids] at hrun
    rw [if_neg hset] at hrun
    obtain ⟨ho, hw⟩ := Prod.mk.injEq .. ▸ Option.some.injEq .. ▸ hrun
    subst hw
    rw [applyWrites_update l desired]
    apply hupd
    · rw [List.length_map]; omega
    · rw [List.filterMap_map]
      simp

/-- Claim C1 witness: a concrete no-change case (sets equal up to order and
null-track entries) and a concrete idempotence case (second run after an
update writes nothing). -/
theorem C1_witness :
    update_playlist_if_needed (pageOf [some "a", none, some "b"] 100) ["b", "a"] 4 =
      some (.noChangeNeeded, []) ∧
    update_playlist_if_needed
      (pageOf (applyWrites [] [.replace (["x", "y"].take 100)]) 100) ["x", "y"] 3 =
      some (.noChangeNeeded, []) :=
  ⟨(C1_reconcile_noop_and_idempotent [some "a", none, some "b"] ["b", "a"] 4
      (by decide) (by decide)).1 (by decide),
   (C1_reconcile_noop_and_idempotent [] ["x", "y"] 3 (by decide) (by decide)).2
      (.updated 2) [.replace (["x", "y"].take 100)] (by decide)⟩

/-- Claim C2: when the desired set differs from the actual set, reconcile
issues exactly one replace call carrying the first up-to-100 desired ids
followed by append calls each carrying the next chunk of up to 100 ids in
the original order; the chunks reassemble the desired sequence exactly, and
applying the calls leaves the collection contents equal to it. -/
theorem C2_reconcile_chunked_replace (l : List (Option String)) (desired : List String)
    (fuel : Nat) (h1 : l.length < fuel)
    (hne : (l.filterMap id).toFinset ≠ desired.toFinset) :
    update_playlist_if_needed (pageOf l 100) desired fuel =
      some (.updated desired.length,
        .replace (desired.take 100) ::
          (pyRange 100 desired.length 100).map (fun i => .append ((desired.drop i).take 100))) ∧
    (∀ chunk ∈ (pyRange 100 desired.length 100).map (fun i => (desired.drop i).take 100),
      chunk.length ≤ 100) ∧
    desired.take 100 ++
      ((pyRange 100 desired.length 100).map (fun i => (desired.drop i).take 100)).flatten =
      desired ∧
    applyWrites l (.replace (desired.take 100) ::
      (pyRange 100 desired.length 100).map (fun i => .append ((desired.drop i).take 100))) =
      desired.map some := by
  refine ⟨?_, ?_, take_join_chunks desired, applyWrites_update l desired⟩
  · obtain ⟨reqs, hids⟩ := getIdsLoop_char l fuel 0 [] (by omega)
    simp only [List.drop_zero, List.nil_append] at hids
    simp only [update_playlist_if_needed, get_playlist_track_ids, hids]
    rw [if_neg hne]
  · intro chunk hchunk
    simp only [List.mem_map] at hchunk
    obtain ⟨i, _, rfl⟩ := hchunk
    rw [List.length_take]
    exact Nat.min_le_left _ _

/-- Claim C2 witness: 250 desired ids against an empty collection give the
chunk starts `[100, 200]` — one replace (first 100) and two appends (next
100, then 50) — and the calls rebuild the 250 ids exactly. -/
theorem C2_witness :
    pyRange 100 sample250.length 100 = [100, 200] ∧
    ((sample250.drop 100).take 100).length = 100 ∧
    ((sample250.drop 200).take 100).length = 50 ∧
    update_playlist_if_needed (pageOf ([] : List (Option String)) 100) sample250 1 =
      some (.updated sample250.length,
        .replace (sample250.take 100) ::
          (pyRange 100 sample250.length 100).map
            (fun i => .append ((sample250.drop i).take 100))) ∧
    applyWrites [] (.replace (sample250.take 100) ::
      (pyRange 100 sample250.length 100).map (fun i => .append ((sample250.drop i).take 100))) =
      sample250.map some :=
  ⟨by rw [show sample250.length = 250 from rfl]; decide,
   by rw [List.length_take, List.length_drop, show sample250.length = 250 from rfl]; rfl,
   by rw [List.length_take, List.length_drop, show sample250.length = 250 from rfl]; rfl,
   (C2_reconcile_chunked_replace [] sample250 1 (by decide) (by
      intro h
      have h2 := (List.toFinset_eq_empty_iff sample250).mp (by simpa using h.symm)
      simp [sample250] at h2)).1,
   (C2_reconcile_chunked_replace [] sample250 1 (by decide) (by
      intro h
      have h2 := (List.toFinset_eq_empty_iff sample250).mp (by simpa using h.symm)
      simp [sample250] at h2)).2.2.2⟩

/-- Claim C10: reading the target collection's contents omits every
null-track entry, and the reconcile decision compares exactly the remaining
ids (as a set) with the desired ids. -/
theorem C10_null_tracks_skipped (l : List (Option String)) (fuel : Nat)
    (hfuel : l.length < fuel) :
    (∃ reqs, get_playlist_track_ids (pageOf l 100) fuel = some (reqs, l.filterMap id)) ∧
    (∀ (desired : List String) (outc : Outcome) (ws : List WriteCall),
      update_playlist_if_needed (pageOf l 100) desired fuel = some (outc, ws) →
      ((outc = .noChangeNeeded ∧ ws = []) ↔ (l.filterMap id).toFinset = desired.toFinset)) := by
  obtain ⟨reqs, hids⟩ := getIdsLoop_char l fuel 0 [] (by omega)
  simp only [List.drop_zero, List.nil_append] at hids
  refine ⟨⟨reqs, hids⟩, ?_⟩
  intro desired outc ws hrun
  simp only [update_playlist_if_needed, get_playlist_track_ids, hids] at hrun
  by_cases hset : (l.filterMap id).toFinset = desired.toFinset
  · rw [if_pos hset] at hrun
    obtain ⟨ho, hw⟩ := Prod.mk.injEq .. ▸ Option.some.injEq .. ▸ hrun
    subst ho
    subst hw
    simp [hset]
  · rw [if_neg hset] at hrun
    obtain ⟨ho, hw⟩ := Prod.mk.injEq .. ▸ Option.some.injEq .. ▸ hrun
    subst ho
    subst hw
    simp [hset]

/-- Claim C10 witness: a listing with a null track in the middle yields only
the two real ids, and the no-change decision holds exactly because the null
entry was ignored. -/
theorem C10_witness :
    (∃ reqs, get_playlist_track_ids (pageOf [some "a", none, some "b"] 100) 4 =
      some (reqs, ["a", "b"])) ∧
    (( .noChangeNeeded = Outcome.noChangeNeeded ∧ ([] : List WriteCall) = []) ↔
      ((["a", "b"] : List String).toFinset = (["b", "a"] : List String).toFinset)) :=
  ⟨(C10_null_tracks_skipped [some "a", none, some "b"] 4 (by decide)).1,
   (C10_null_tracks_skipped [some "a", none, some "b"] 4 (by decide)).2 ["b", "a"]
     .noChangeNeeded [] (by decide)⟩

end RotMgr

namespace RotMgr

/-- Claim C5: with cutoff = now - months*30 days and a newest-first source in
which every entry parses, the window contains exactly the source entries with
added_at at or after the cutoff, in source order; an empty source yields an
empty window. -/
theorem C5_window_correct (lib : List SavedItem) (now : Int) (months fuel : Nat)
    (hparse : ∀ it ∈ lib, (parseAddedAt it.added_at).isSome = true)
    (hsorted : lib.Pairwise (fun a b => olderOrEq b a = true))
    (hfuel : lib.length < fuel) :
    ∃ reqs, fetch_liked_tracks (pageOf lib 50) now months fuel =
      some (reqs, .ok ((lib.filter (inWindow (cutoffOf now months))).map (·.track_id))) := by
  obtain ⟨reqs, hok⟩ := fetchLoop_ok lib (cutoffOf now months) hparse fuel 0 [] (by omega)
  simp only [List.drop_zero, List.nil_append] at hok
  refine ⟨reqs, ?_⟩
  unfold fetch_liked_tracks
  rw [hok]
  have himp : lib.Pairwise (fun a b => inWindow (cutoffOf now months) b = true →
      inWindow (cutoffOf now months) a = true) := by
    refine List.Pairwise.imp_of_mem ?_ hsorted
    intro a b ha hb hole hwb
    have hsa := hparse a ha
    rcases hpa : parseAddedAt a.added_at with _ | ta
    · rw [hpa] at hsa; simp at hsa
    rcases hpb : parseAddedAt b.added_at with _ | tb
    · unfold inWindow at hwb; rw [hpb] at hwb; simp at hwb
    unfold olderOrEq at hole
    rw [hpa, hpb] at hole
    unfold inWindow at hwb ⊢
    rw [hpb] at hwb
    rw [hpa]
    simp only [decide_eq_true_eq] at hole hwb ⊢
    omega
  rw [takeWhile_eq_filter_of_pairwise _ lib himp]

/-- Claim C5 witness: with now = 2026-01-01 and a 12-month window the cutoff
is exactly 2025-01-06; the entry one day after it is kept, the entry one day
before it is dropped, and an empty library gives an empty window. -/
theorem C5_witness :
    cutoffOf (toEpochSec 2026 1 1 0 0 0) 12 = toEpochSec 2025 1 6 0 0 0 ∧
    ([(⟨"2025-01-07T00:00:00Z", "A"⟩ : SavedItem), ⟨"2025-01-05T00:00:00Z", "B"⟩].filter
      (inWindow (cutoffOf (toEpochSec 2026 1 1 0 0 0) 12))).map (·.track_id) = ["A"] ∧
    (∃ reqs, fetch_liked_tracks
      (pageOf [(⟨"2025-01-07T00:00:00Z", "A"⟩ : SavedItem), ⟨"2025-01-05T00:00:00Z", "B"⟩] 50)
      (toEpochSec 2026 1 1 0 0 0) 12 3 =
      some (reqs, .ok
        (([(⟨"2025-01-07T00:00:00Z", "A"⟩ : SavedItem), ⟨"2025-01-05T00:00:00Z", "B"⟩].filter
          (inWindow (cutoffOf (toEpochSec 2026 1 1 0 0 0) 12))).map (·.track_id)))) ∧
    (∃ reqs, fetch_liked_tracks (pageOf ([] : List SavedItem) 50)
      (toEpochSec 2026 1 1 0 0 0) 12 1 = some (reqs, .ok [])) :=
  ⟨by decide, by decide,
   C5_window_correct [⟨"2025-01-07T00:00:00Z", "A"⟩, ⟨"2025-01-05T00:00:00Z", "B"⟩]
     (toEpochSec 2026 1 1 0 0 0) 12 3 (by decide)
     (by simp only [List.pairwise_cons]; refine ⟨?_, ?_, List.Pairwise.nil⟩ <;> decide)
     (by decide),
   C5_window_correct [] (toEpochSec 2026 1 1 0 0 0) 12 1 (by simp) List.Pairwise.nil
     (by decide)⟩

/-- Claim C6: the windowed reader stops at the first entry below the cutoff,
even mid-page, and requests no further pages: when exactly the first
`pre.length` entries are in-window, it makes `pre.length / 50 + 1` page
requests — at most `ceil(pre.length/50) + 1` — regardless of how long the
rest of the source is. -/
theorem C6_early_stop_bound (pre rest : List SavedItem) (bad : SavedItem) (now : Int)
    (months fuel : Nat) (t : Int)
    (hpre : ∀ it ∈ pre, inWindow (cutoffOf now months) it = true)
    (hbad : parseAddedAt bad.added_at = some t) (ht : t < cutoffOf now months)
    (hfuel : pre.length < 50 * fuel) :
    ∃ reqs, fetch_liked_tracks (pageOf (pre ++ bad :: rest) 50) now months fuel =
      some (reqs, .ok (pre.map (·.track_id))) ∧
      reqs.length = pre.length / 50 + 1 ∧
      reqs.length ≤ (pre.length + 49) / 50 + 1 := by
  obtain ⟨reqs, hr, hc⟩ := fetchLoop_early (pre ++ bad :: rest) (cutoffOf now months)
    fuel 0 [] pre bad rest t (by simp) hpre hbad ht hfuel
  simp only [List.nil_append] at hr
  exact ⟨reqs, hr, hc, by omega⟩

/-- Claim C6 witness: a 500-entry source whose first 30 entries are
in-window is read with a single page request (at most ceil(30/50)+1 = 2),
never scanning the remaining 470 entries. -/
theorem C6_witness :
    (List.replicate 30 (⟨"2025-06-01T00:00:00Z", "a"⟩ : SavedItem)).length / 50 + 1 = 1 ∧
    ((List.replicate 30 (⟨"2025-06-01T00:00:00Z", "a"⟩ : SavedItem)).length + 49) / 50 + 1 = 2 ∧
    (List.replicate 30 (⟨"2025-06-01T00:00:00Z", "a"⟩ : SavedItem)).length +
      (1 + (List.replicate 469 (⟨"2020-01-01T00:00:00Z", "b"⟩ : SavedItem)).length) = 500 ∧
    (∃ reqs, fetch_liked_tracks
      (pageOf (List.replicate 30 (⟨"2025-06-01T00:00:00Z", "a"⟩ : SavedItem) ++
        (⟨"2020-01-01T00:00:00Z", "b"⟩ : SavedItem) ::
          List.replicate 469 (⟨"2020-01-01T00:00:00Z", "b"⟩ : SavedItem)) 50)
      (toEpochSec 2026 1 1 0 0 0) 12 1 =
      some (reqs, .ok ((List.replicate 30 (⟨"2025-06-01T00:00:00Z", "a"⟩ : SavedItem)).map
        (·.track_id))) ∧
      reqs.length = (List.replicate 30 (⟨"2025-06-01T00:00:00Z", "a"⟩ : SavedItem)).length / 50
        + 1 ∧
      reqs.length ≤ ((List.replicate 30 (⟨"2025-06-01T00:00:00Z", "a"⟩ : SavedItem)).length + 49)
        / 50 + 1) :=
  ⟨by decide, by decide, by decide,
   C6_early_stop_bound (List.replicate 30 ⟨"2025-06-01T00:00:00Z", "a"⟩)
     (List.replicate 469 ⟨"2020-01-01T00:00:00Z", "b"⟩) ⟨"2020-01-01T00:00:00Z", "b"⟩
     (toEpochSec 2026 1 1 0 0 0) 12 1 (toEpochSec 2020 1 1 0 0 0)
     (by decide) (by decide) (by decide) (by decide)⟩

/-- Claim C8 counterexample: a source list containing a malformed entry on
which the window-reading phase does NOT raise — the first entry is already
below the cutoff, so the loop early-returns before ever examining the
malformed second entry, returning normally. -/
theorem C8_counterexample :
    parseAddedAt "not-a-timestamp" = none ∧
    ((⟨"not-a-timestamp", "B"⟩ : SavedItem) ∈
      [(⟨"2020-01-01T00:00:00Z", "A"⟩ : SavedItem), ⟨"not-a-timestamp", "B"⟩]) ∧
    fetch_liked_tracks
      (pageOf [(⟨"2020-01-01T00:00:00Z", "A"⟩ : SavedItem), ⟨"not-a-timestamp", "B"⟩] 50)
      (toEpochSec 2026 1 1 0 0 0) 12 3 = some ([0], .ok []) := by
  exact ⟨by decide, by decide, by decide⟩

/-- Claim C8 (amended): if every entry before the malformed one is in-window
(so the scan reaches it), the window-reading phase raises rather than
skipping the entry or returning a partial window. -/
theorem C8_malformed_raises (pre rest : List SavedItem) (bad : SavedItem) (now : Int)
    (months fuel : Nat)
    (hpre : ∀ it ∈ pre, inWindow (cutoffOf now months) it = true)
    (hbad : parseAddedAt bad.added_at = none)
    (hfuel : pre.length < 50 * fuel) :
    ∃ reqs, fetch_liked_tracks (pageOf (pre ++ bad :: rest) 50) now months fuel =
      some (reqs, .raised) := by
  obtain ⟨reqs, hr, _⟩ := fetchLoop_raise (pre ++ bad :: rest) (cutoffOf now months)
    fuel 0 [] pre bad rest (by simp) hpre hbad hfuel
  exact ⟨reqs, hr⟩

/-- Claim C8 witness: an in-window entry followed by a malformed one makes
the reader raise. -/
theorem C8_witness :
    parseAddedAt "garbage" = none ∧
    (∃ reqs, fetch_liked_tracks
      (pageOf ([(⟨"2025-06-01T00:00:00Z", "A"⟩ : SavedItem)] ++
        (⟨"garbage", "B"⟩ : SavedItem) :: []) 50)
      (toEpochSec 2026 1 1 0 0 0) 12 1 = some (reqs, .raised)) :=
  ⟨by decide,
   C8_malformed_raises [⟨"2025-06-01T00:00:00Z", "A"⟩] [] ⟨"garbage", "B"⟩
     (toEpochSec 2026 1 1 0 0 0) 12 1 (by decide) (by decide) (by decide)⟩

end RotMgr

namespace RotMgr

/-- Claim C3 counterexample: the locator's walk does not advance its offset
by the number of items actually returned.  After a short page of 1 item
(with `next` still set) it requests offset 50, not 1. -/
theorem C3_counterexample :
    findLoop shortPageListing "u" "n" 2 0 = some ([0, 50], .notFound) ∧
    (shortPageListing 0).items.length = 1 ∧
    ¬ ([0, 50] : List Nat).Chain' (fun a b => b = a + (shortPageListing a).items.length) := by
  refine ⟨by decide, by decide, ?_⟩
  intro hchain
  rcases List.chain'_cons'.mp hchain with ⟨hrel, _⟩
  have hbad := hrel 50 (by simp)
  simp [shortPageListing] at hbad

/-- Claim C3 (amended): the saved-tracks walk, the full playlists-listing
walk and the collection-items walk each advance their offset by the number
of items the previous page actually returned and stop when a page returns
zero items (for the saved-tracks walk, possibly earlier when its scan stops
mid-page); the locator's walk instead advances by the nominal page size 50
and stops when the service reports no more pages (or a match is found). -/
theorem C3_offset_advancement :
    (∀ (page : Nat → List SavedItem) (c : Int) (fuel offset : Nat) (acc : List String)
      (reqs : List Nat) (out : FetchResult),
      fetchLoop page c fuel offset acc = some (reqs, out) →
      reqs.head? = some offset ∧
      reqs.Chain' (fun a b => b = a + (page a).length) ∧
      ∃ last, reqs.getLast? = some last ∧
        (page last = [] ∨ ∀ r, scanItems c (page last) [] ≠ .next r)) ∧
    (∀ (page : Nat → PlaylistsResp) (fuel offset : Nat) (acc : List Playlist)
      (reqs : List Nat) (out : List Playlist),
      playlistsLoop page fuel offset acc = some (reqs, out) →
      reqs.head? = some offset ∧
      reqs.Chain' (fun a b => b = a + (page a).items.length) ∧
      ∃ last, reqs.getLast? = some last ∧ (page last).items = []) ∧
    (∀ (page : Nat → List (Option String)) (fuel offset : Nat) (acc : List String)
      (reqs : List Nat) (out : List String),
      getIdsLoop page fuel offset acc = some (reqs, out) →
      reqs.head? = some offset ∧
      reqs.Chain' (fun a b => b = a + (page a).length) ∧
      ∃ last, reqs.getLast? = some last ∧ page last = []) ∧
    (∀ (page : Nat → PlaylistsResp) (user name : String) (fuel offset : Nat)
      (reqs : List Nat) (out : FindOut),
      findLoop page user name fuel offset = some (reqs, out) →
      reqs.head? = some offset ∧
      reqs.Chain' (fun a b => b = a + 50) ∧
      ∃ last, reqs.getLast? = some last ∧
        ((∃ pl, (page last).items.find? (fun q => q.name == name && q.owner == user) = some pl) ∨
          (page last).next = false)) :=
  ⟨fun page c fuel offset acc reqs out h =>
      fetchLoop_requests page c fuel offset acc reqs out h,
   fun page fuel offset acc reqs out h =>
      playlistsLoop_requests page fuel offset acc reqs out h,
   fun page fuel offset acc reqs out h =>
      getIdsLoop_requests page fuel offset acc reqs out h,
   fun page user name fuel offset reqs out h =>
      findLoop_requests page user name fuel offset reqs out h⟩

/-- Claim C3 witness: concrete runs of all four walks — the first three
advance by the actual page sizes (1-item pages, then empty), the locator
jumps from 0 straight to 50 after a 1-item page. -/
theorem C3_witness :
    (([0, 1] : List Nat).head? = some 0 ∧
     ([0, 1] : List Nat).Chain' (fun a b => b = a + (onePageSaved a).length) ∧
     ∃ last, ([0, 1] : List Nat).getLast? = some last ∧
       (onePageSaved last = [] ∨ ∀ r, scanItems 0 (onePageSaved last) [] ≠ .next r)) ∧
    (([0, 1] : List Nat).head? = some 0 ∧
     ([0, 1] : List Nat).Chain' (fun a b => b = a + ((respOf [⟨"x", "y", "z"⟩] 50 a)).items.length) ∧
     ∃ last, ([0, 1] : List Nat).getLast? = some last ∧
       (respOf [⟨"x", "y", "z"⟩] 50 last).items = []) ∧
    (([0, 1] : List Nat).head? = some 0 ∧
     ([0, 1] : List Nat).Chain' (fun a b => b = a + (pageOf [some "a"] 100 a).length) ∧
     ∃ last, ([0, 1] : List Nat).getLast? = some last ∧ pageOf [some "a"] 100 last = []) ∧
    (([0, 50] : List Nat).head? = some 0 ∧
     ([0, 50] : List Nat).Chain' (fun a b => b = a + 50) ∧
     ∃ last, ([0, 50] : List Nat).getLast? = some last ∧
       ((∃ pl, (shortPageListing last).items.find?
          (fun q => q.name == "n" && q.owner == "u") = some pl) ∨
         (shortPageListing last).next = false)) :=
  ⟨C3_offset_advancement.1 onePageSaved 0 2 0 [] [0, 1] (.ok ["a"]) (by decide),
   C3_offset_advancement.2.1 (respOf [⟨"x", "y", "z"⟩] 50) 2 0 [] [0, 1] [⟨"x", "y", "z"⟩]
     (by decide),
   C3_offset_advancement.2.2.1 (pageOf [some "a"] 100) 2 0 [] [0, 1] ["a"] (by decide),
   C3_offset_advancement.2.2.2 shortPageListing "u" "n" 2 0 [0, 50] .notFound (by decide)⟩

/-- Claim C4 counterexample: the orchestrator's own selection compares the
name only.  With current user "bob" it still selects the playlist named
`ROTATION_NAME` owned by "alice", which the locator's (name, owner)
comparison rejects. -/
theorem C4_counterexample :
    mainSelectTarget [⟨"p1", ROTATION_NAME, "alice"⟩] = some "p1" ∧
    (⟨"p1", ROTATION_NAME, "alice"⟩ : Playlist).owner ≠ "bob" ∧
    ([(⟨"p1", ROTATION_NAME, "alice"⟩ : Playlist)].find?
      (fun q => q.name == ROTATION_NAME && q.owner == "bob")) = none :=
  ⟨by decide, by decide, by decide⟩

/-- Claim C4 (amended): the locator compares each candidate's name and owner
to the requested pair with exact, case-sensitive string equality and returns
the first match's identifier; only when no page contains a match does it
issue a single create call with the given name and private visibility,
returning the new identifier.  The orchestrator's own selection of the
target collection, however, compares only the name (the first playlist whose
name equals `ROTATION_NAME`), ignoring the owner. -/
theorem C4_locator_and_selection (l : List Playlist) (cid user name : String) (fuel : Nat)
    (hfuel : l.length ≤ 50 * fuel) (hf : 0 < fuel) :
    (∀ pl, l.find? (fun q => q.name == name && q.owner == user) = some pl →
      ∃ reqs, find_or_create_playlist (respOf l 50) cid user name fuel =
        some (reqs, pl.id, [])) ∧
    (l.find? (fun q => q.name == name && q.owner == user) = none →
      ∃ reqs, find_or_create_playlist (respOf l 50) cid user name fuel =
        some (reqs, cid, [⟨user, name, false⟩])) ∧
    (∀ pls : List Playlist, mainSelectTarget pls =
      (pls.find? (fun q => q.name == ROTATION_NAME)).map Playlist.id) := by
  obtain ⟨reqs, hloop⟩ := findLoop_char l user name fuel 0 (by omega) hf
  simp only [List.drop_zero] at hloop
  refine ⟨?_, ?_, ?_⟩
  · intro pl hfind
    rw [hfind] at hloop
    exact ⟨reqs, by unfold find_or_create_playlist; rw [hloop]⟩
  · intro hfind
    rw [hfind] at hloop
    exact ⟨reqs, by unfold find_or_create_playlist; rw [hloop]⟩
  · intro pls
    induction pls with
    | nil => rfl
    | cons q rest ih =>
      cases hq : (q.name == ROTATION_NAME) with
      | true => simp [mainSelectTarget, List.find?, hq]
      | false => simp [mainSelectTarget, List.find?, hq, ih]

/-- Claim C4 witness: the locator finds an exact (name, owner) match without
creating; with a different owner it creates a private playlist; and the
orchestrator's selection equals find-by-name. -/
theorem C4_witness :
    (∃ reqs, find_or_create_playlist (respOf [⟨"id9", "My Mix", "u"⟩] 50) "newid" "u" "My Mix" 1 =
      some (reqs, (⟨"id9", "My Mix", "u"⟩ : Playlist).id, [])) ∧
    (∃ reqs, find_or_create_playlist (respOf [⟨"id9", "My Mix", "alice"⟩] 50) "newid" "u"
      "My Mix" 1 = some (reqs, "newid", [⟨"u", "My Mix", false⟩])) ∧
    mainSelectTarget [⟨"p1", ROTATION_NAME, "alice"⟩] =
      ((([⟨"p1", ROTATION_NAME, "alice"⟩] : List Playlist).find?
        (fun q => q.name == ROTATION_NAME)).map Playlist.id) :=
  ⟨(C4_locator_and_selection [⟨"id9", "My Mix", "u"⟩] "newid" "u" "My Mix" 1 (by decide)
      (by decide)).1 ⟨"id9", "My Mix", "u"⟩ (by decide),
   (C4_locator_and_selection [⟨"id9", "My Mix", "alice"⟩] "newid" "u" "My Mix" 1 (by decide)
      (by decide)).2.1 (by decide),
   (C4_locator_and_selection [] "newid" "u" "My Mix" 1 (by decide) (by decide)).2.2
     [⟨"p1", ROTATION_NAME, "alice"⟩]⟩

/-- Claim C7: when the owner's collection listing returns zero items, the
orchestrator skips the locate/create and reconcile phases for that run and
reports the warning outcome; no create call and no write call is issued. -/
theorem C7_empty_listing_skips (st : RemoteState) (now : Int) (fuel : Nat)
    (reqs : List Nat) (ids : List String)
    (hfetch : fetch_liked_tracks (pageOf st.saved 50) now MONTHS_BACK fuel =
      some (reqs, .ok ids))
    (hempty : st.playlists = [])
    (hf : 0 < fuel) :
    mainRun st now fuel = some ⟨.skippedEmptyListing ids.length, [], []⟩ := by
  have hlist : get_all_user_playlists (respOf st.playlists 50) fuel = some ([0], []) := by
    rw [hempty]
    cases fuel with
    | zero => omega
    | succ f => rfl
  simp only [mainRun, hfetch, hlist]
  rfl

/-- Claim C7 witness: a run against a service with no playlists reports the
warning outcome and issues no calls. -/
theorem C7_witness :
    mainRun ⟨[], [], fun _ => [], "u", "fresh"⟩ 0 1 =
      some ⟨.skippedEmptyListing ([] : List String).length, [], []⟩ :=
  C7_empty_listing_skips ⟨[], [], fun _ => [], "u", "fresh"⟩ 0 1 [0] [] (by decide) rfl
    (by decide)

/-- Claim C9: two sequential find-or-create calls for the same (owner, name)
with no other remote-state change return the same identifier, the second
issues no create call and leaves the state unchanged, and the number of
matching collections afterwards is one when none existed and unchanged
otherwise (hence at most one). -/
theorem C9_locator_idempotent (l : List Playlist) (freshId user name : String) (fuel : Nat)
    (hfuel : l.length + 1 ≤ 50 * fuel) :
    ∃ pid cs1 l1,
      runFindOrCreate l freshId user name fuel = some (pid, cs1, l1) ∧
      runFindOrCreate l1 freshId user name fuel = some (pid, [], l1) ∧
      l1.countP (fun q => q.name == name && q.owner == user) =
        (if l.countP (fun q => q.name == name && q.owner == user) = 0 then 1
         else l.countP (fun q => q.name == name && q.owner == user)) := by
  have hf : 0 < fuel := by omega
  obtain ⟨reqs1, hloop1⟩ := findLoop_char l user name fuel 0 (by omega) hf
  simp only [List.drop_zero] at hloop1
  cases hfind : l.find? (fun q => q.name == name && q.owner == user) with
  | some pl =>
    rw [hfind] at hloop1
    have hrun1 : runFindOrCreate l freshId user name fuel = some (pl.id, [], l) := by
      unfold runFindOrCreate find_or_create_playlist
      rw [hloop1]
    have hmem := List.mem_of_find?_eq_some hfind
    have hpl := List.find?_some hfind
    have hcount : 0 < l.countP (fun q => q.name == name && q.owner == user) :=
      List.countP_pos_iff.mpr ⟨pl, hmem, hpl⟩
    exact ⟨pl.id, [], l, hrun1, hrun1, by rw [if_neg (by omega)]⟩
  | none =>
    rw [hfind] at hloop1
    have hrun1 : runFindOrCreate l freshId user name fuel =
        some (freshId, [⟨user, name, false⟩], l ++ [⟨freshId, name, user⟩]) := by
      unfold runFindOrCreate find_or_create_playlist
      rw [hloop1]
    obtain ⟨reqs2, hloop2⟩ := findLoop_char (l ++ [⟨freshId, name, user⟩]) user name fuel 0
      (by simp only [List.length_append, List.length_cons, List.length_nil]; omega) hf
    simp only [List.drop_zero] at hloop2
    have hfind2 : (l ++ [(⟨freshId, name, user⟩ : Playlist)]).find?
        (fun q => q.name == name && q.owner == user) = some (⟨freshId, name, user⟩ : Playlist)
        := by
      rw [List.find?_append, hfind]
      simp
    rw [hfind2] at hloop2
    have hrun2 : runFindOrCreate (l ++ [(⟨freshId, name, user⟩ : Playlist)]) freshId user name
        fuel = some (freshId, [], l ++ [(⟨freshId, name, user⟩ : Playlist)]) := by
      unfold runFindOrCreate find_or_create_playlist
      rw [hloop2]
    have hzero : l.countP (fun q => q.name == name && q.owner == user) = 0 := by
      rw [List.countP_eq_zero]
      exact List.find?_eq_none.mp hfind
    refine ⟨freshId, [⟨user, name, false⟩], l ++ [⟨freshId, name, user⟩], hrun1, hrun2, ?_⟩
    rw [List.countP_append, hzero, if_pos rfl]
    simp

/-- Claim C9 witness: starting from an empty account the first call creates,
the second returns the same id with no create call, and exactly one matching
collection exists. -/
theorem C9_witness :
    ∃ pid cs1 l1,
      runFindOrCreate [] "pid" "u" "n" 1 = some (pid, cs1, l1) ∧
      runFindOrCreate l1 "pid" "u" "n" 1 = some (pid, [], l1) ∧
      l1.countP (fun q => q.name == "n" && q.owner == "u") =
        (if ([] : List Playlist).countP (fun q => q.name == "n" && q.owner == "u") = 0 then 1
         else ([] : List Playlist).countP (fun q => q.name == "n" && q.owner == "u")) :=
  C9_locator_idempotent [] "pid" "u" "n" 1 (by decide)

end RotMgr
